import Mathlib

set_option linter.unusedVariables false

/-!
Verification of the Tetris game-state engine (TypeScript sources under `src/`).

The definitions below are a shallow embedding of the code:
* `src/core/types.ts` — core types and `GAME_CONFIG`;
* `src/game/Board.ts` — the `Board` class (grid, collision, line clearing)
  and the `Tetromino` module revision bundled with it (`TETROMINO_SHAPES`,
  `createTetromino`, `rotateTetromino`, `getWallKickOffsets`, `PieceGenerator`);
* `src/game/Commands.ts` — the five input commands;
* `src/game/GameState.ts` — `GameStateManager` helpers (`spawnPiece`,
  `calculateScore`, `calculateLevel`).

JavaScript numbers used as grid coordinates are modelled as `Int` (positions
may be negative while a piece enters from above); cell values and counters
are `Nat`. `undefined` results are modelled with `Option`. `Math.random()`
is modelled as an explicit stream of naturals, reduced modulo the required
bound exactly where `Math.floor(Math.random() * (i + 1))` appears.
-/

namespace Tetris

/-- `TetrominoType` from `src/core/types.ts`: the 7 standard pieces. -/
inductive Tet
  | I
  | O
  | T
  | S
  | Z
  | J
  | L
deriving DecidableEq, Repr

/-- `GameStatus` from `src/core/types.ts`. -/
inductive GameStatus
  | idle
  | playing
  | paused
  | gameOver
deriving DecidableEq, Repr

/-- `Position` from `src/core/types.ts`. -/
structure Position where
  x : Int
  y : Int
deriving DecidableEq, Repr

/-- `Tetromino` from `src/core/types.ts`. -/
structure Tetromino where
  type : Tet
  shape : List (List Nat)
  color : String
  rotationState : Nat
deriving DecidableEq, Repr

/-- `GameState` from `src/core/types.ts`.  The optional JS fields
`lockRequested?` and `lastSpawnTime?` are modelled as `Bool` (absent =
`false`, matching JS truthiness) and `Option Int`. -/
structure GameState where
  board : List (List Nat)
  currentPiece : Option Tetromino
  currentPosition : Position
  nextPiece : Tetromino
  heldPiece : Option Tetromino
  canHold : Bool
  score : Nat
  level : Nat
  lines : Nat
  gameStatus : GameStatus
  lockRequested : Bool
  lastSpawnTime : Option Int
deriving Repr

namespace GAME_CONFIG

def BOARD_WIDTH : Nat := 10

def BOARD_HEIGHT : Nat := 20

def SPAWN_DELAY : Int := 200

def SCORE_SINGLE : Nat := 100

def SCORE_DOUBLE : Nat := 300

def SCORE_TRIPLE : Nat := 500

def SCORE_TETRIS : Nat := 800

def SOFT_DROP_POINTS : Nat := 1

def HARD_DROP_POINTS : Nat := 2

def LINES_PER_LEVEL : Nat := 10

def MAX_LEVEL : Nat := 29

end GAME_CONFIG

/-- `TETROMINO_COLORS` from `src/core/types.ts`. -/
def TETROMINO_COLORS : Tet → String
  | Tet.I => "#00f0f0"
  | Tet.O => "#f0f000"
  | Tet.T => "#a000f0"
  | Tet.S => "#00f000"
  | Tet.Z => "#f00000"
  | Tet.J => "#0000f0"
  | Tet.L => "#f0a000"

/-- The `Board` class state (`src/game/Board.ts`). -/
structure Board where
  width : Nat
  height : Nat
  grid : List (List Nat)
deriving Repr

namespace Board

/-- `Board.createEmptyGrid`: `height` rows of `width` zero cells. -/
def createEmptyGrid (w h : Nat) : List (List Nat) :=
  List.replicate h (List.replicate w 0)

/-- The `Board` constructor when a grid is supplied: it keeps the
dimensions and defensively copies the grid row by row
(`grid.map((row) => [...row])`). -/
def ofGrid (w h : Nat) (g : List (List Nat)) : Board :=
  { width := w, height := h, grid := g.map (fun row => row) }

/-- `Board.getCell`: bounds-checked read; `undefined` is `none`. -/
def getCell (b : Board) (x y : Int) : Option Nat :=
  if x < 0 ∨ x ≥ (b.width : Int) ∨ y < 0 ∨ y ≥ (b.height : Int) then
    none
  else
    (b.grid.get? y.toNat).bind fun row => row.get? x.toNat

/-- `Board.canPlacePiece`: every occupied sub-cell of the shape must be
inside `[0, width) × (-∞, height)`, and when its absolute `y ≥ 0` the
grid cell there must not hold a non-zero value (`cell !== 0 &&
cell !== undefined` rejects). -/
def canPlacePiece (b : Board) (p : Tetromino) (pos : Position) : Bool :=
  (List.range p.shape.length).all fun row =>
    let shapeRow := p.shape.getD row []
    (List.range shapeRow.length).all fun col =>
      if shapeRow.getD col 0 ≠ 0 then
        let boardX := pos.x + col
        let boardY := pos.y + row
        if boardX < 0 ∨ boardX ≥ (b.width : Int) ∨ boardY ≥ (b.height : Int) then
          false
        else if 0 ≤ boardY then
          match b.getCell boardX boardY with
          | some c => c == 0
          | none => true
        else
          true
      else
        true

/-- The completed-line test inside `Board.clearLines`: row `y` is complete
when no column `x < width` reads as the empty cell value `0`. -/
def isLineComplete (b : Board) (y : Nat) : Bool :=
  (List.range b.width).all fun x => !(b.getCell x y == some 0)

/-- One iteration of the removal loop in `Board.clearLines`:
`grid.splice(lineY, 1)` then `grid.unshift(new Array(width).fill(0))`. -/
def clearStep (w : Nat) (g : List (List Nat)) (y : Nat) : List (List Nat) :=
  List.replicate w 0 :: g.eraseIdx y

/-- `Board.clearLines`: detect the completed line indices top to bottom,
then splice each out and prepend a fresh empty row, returning the
updated board and the number of lines cleared. -/
def clearLines (b : Board) : Board × Nat :=
  let linesToClear := (List.range b.height).filter fun y => b.isLineComplete y
  ({ b with grid := linesToClear.foldl (clearStep b.width) b.grid },
   linesToClear.length)

/-- `Board.isEmpty`. -/
def isEmpty (b : Board) : Bool :=
  (List.range b.height).all fun y =>
    (List.range b.width).all fun x => b.getCell x y == some 0

end Board

/-- A board is well formed when the grid really has `height` rows of
`width` cells each — the invariant the `Board` constructor establishes. -/
def Board.wf (b : Board) : Prop :=
  b.grid.length = b.height ∧ ∀ r ∈ b.grid, r.length = b.width

instance (b : Board) : Decidable b.wf := by
  unfold Board.wf
  exact inferInstance

/-- `TETROMINO_SHAPES` from the Tetromino module: the ordered rotation
states of each piece (4 for I/T/J/L, 2 for S/Z, 1 for O). -/
def TETROMINO_SHAPES : Tet → List (List (List Nat))
  | Tet.I =>
    [[[0, 0, 0, 0], [1, 1, 1, 1], [0, 0, 0, 0], [0, 0, 0, 0]],
     [[0, 0, 1, 0], [0, 0, 1, 0], [0, 0, 1, 0], [0, 0, 1, 0]],
     [[0, 0, 0, 0], [0, 0, 0, 0], [1, 1, 1, 1], [0, 0, 0, 0]],
     [[0, 1, 0, 0], [0, 1, 0, 0], [0, 1, 0, 0], [0, 1, 0, 0]]]
  | Tet.O =>
    [[[1, 1], [1, 1]]]
  | Tet.T =>
    [[[0, 1, 0], [1, 1, 1], [0, 0, 0]],
     [[0, 1, 0], [0, 1, 1], [0, 1, 0]],
     [[0, 0, 0], [1, 1, 1], [0, 1, 0]],
     [[0, 1, 0], [1, 1, 0], [0, 1, 0]]]
  | Tet.S =>
    [[[0, 1, 1], [1, 1, 0], [0, 0, 0]],
     [[0, 1, 0], [0, 1, 1], [0, 0, 1]]]
  | Tet.Z =>
    [[[1, 1, 0], [0, 1, 1], [0, 0, 0]],
     [[0, 0, 1], [0, 1, 1], [0, 1, 0]]]
  | Tet.J =>
    [[[1, 0, 0], [1, 1, 1], [0, 0, 0]],
     [[0, 1, 1], [0, 1, 0], [0, 1, 0]],
     [[0, 0, 0], [1, 1, 1], [0, 0, 1]],
     [[0, 1, 0], [0, 1, 0], [1, 1, 0]]]
  | Tet.L =>
    [[[0, 0, 1], [1, 1, 1], [0, 0, 0]],
     [[0, 1, 0], [0, 1, 0], [0, 1, 1]],
     [[0, 0, 0], [1, 1, 1], [1, 0, 0]],
     [[1, 1, 0], [0, 1, 0], [0, 1, 0]]]

/-- `RotationDirection` from `src/core/types.ts`. -/
inductive RotationDirection
  | CW
  | CCW
deriving DecidableEq, Repr

/-- `createTetromino`: spawn orientation (rotation state 0). -/
def createTetromino (type : Tet) : Tetromino :=
  { type := type
    shape := (TETROMINO_SHAPES type).getD 0 []
    color := TETROMINO_COLORS type
    rotationState := 0 }

/-- `rotateTetromino`: the O piece is returned unchanged; otherwise the
rotation-state index advances (CW) or retreats (CCW) modulo the number
of predefined states and the shape is looked up from the table.  The
CCW branch computes `(rotationState - 1 + numRotations) % numRotations`
in JS signed arithmetic, modelled via `Int` then `toNat`. -/
def rotateTetromino (p : Tetromino) (direction : RotationDirection) : Tetromino :=
  if p.type = Tet.O then
    p
  else
    let shapes := TETROMINO_SHAPES p.type
    let numRotations := shapes.length
    let newRotationState : Nat :=
      match direction with
      | RotationDirection.CW => (p.rotationState + 1) % numRotations
      | RotationDirection.CCW =>
        (((p.rotationState : Int) - 1 + numRotations) % (numRotations : Int)).toNat
    { p with
      shape := shapes.getD newRotationState []
      rotationState := newRotationState }

/-- `getWallKickOffsets` as it stands in `src/game/Board.ts` (lines
423–440): a placeholder that returns the same five basic offsets for
every piece type and every rotation pair. -/
def getWallKickOffsets (piece : Tetromino) (fromRotation toRotation : Nat) :
    List (Int × Int) :=
  [(0, 0), (-1, 0), (1, 0), (0, -1), (-1, -1)]

/-- A piece is well formed when its rotation state indexes one of the
predefined shapes of its type and its shape is that table entry — the
invariant `createTetromino` establishes. -/
def Tetromino.wf (p : Tetromino) : Prop :=
  p.rotationState < (TETROMINO_SHAPES p.type).length ∧
  p.shape = (TETROMINO_SHAPES p.type).getD p.rotationState []

instance (p : Tetromino) : Decidable p.wf := by
  unfold Tetromino.wf
  exact inferInstance

/-- The rotation-state update inside `rotateTetromino`, per direction. -/
def rsStep (n : Nat) (d : RotationDirection) (r : Nat) : Nat :=
  match d with
  | RotationDirection.CW => (r + 1) % n
  | RotationDirection.CCW => (((r : Int) - 1 + n) % (n : Int)).toNat

/-- The state of `PieceGenerator`: the bag plus an explicit stream of
random naturals standing in for `Math.random()` (`rng k` is the `k`-th
value drawn so far; `used` counts consumed draws). -/
structure GenState where
  bag : List Tet
  rng : Nat → Nat
  used : Nat

/-- `allPieces` from `PieceGenerator`. -/
def allPieces : List Tet :=
  [Tet.I, Tet.O, Tet.T, Tet.S, Tet.Z, Tet.J, Tet.L]

/-- The swap `[this.bag[i], this.bag[j]] = [this.bag[j], this.bag[i]]`
on a list, with a default for the (in-practice unreachable)
out-of-bounds reads. -/
def listSwap (l : List Tet) (i j : Nat) : List Tet :=
  (l.set i (l.getD j Tet.I)).set j (l.getD i Tet.I)

/-- The Fisher–Yates loop of `PieceGenerator.shuffle`: the argument `i`
is the current loop counter (the loop body runs while `i > 0`), and `k`
indexes the random stream; `j = Math.floor(Math.random() * (i + 1))` is
modelled as `rng k % (i + 1)`. -/
def fyLoop (rng : Nat → Nat) : Nat → Nat → List Tet → List Tet
  | _, 0, l => l
  | k, i + 1, l => fyLoop rng (k + 1) i (listSwap l (i + 1) (rng k % (i + 2)))

/-- `PieceGenerator.refillBag`: shuffle the fresh bag
`[...this.allPieces]` in place, consuming 6 random draws. -/
def refillBag (s : GenState) : GenState :=
  { s with
    bag := fyLoop s.rng s.used (allPieces.length - 1) allPieces
    used := s.used + (allPieces.length - 1) }

/-- `PieceGenerator.next`: refill when empty, then `bag.pop()` (the last
element).  The `none` branch mirrors the non-null assertion on `pop()`,
which is unreachable because a refilled bag holds 7 pieces. -/
def genNext (s : GenState) : Tetromino × GenState :=
  let s1 := if s.bag.isEmpty then refillBag s else s
  match s1.bag.getLast? with
  | some t => (createTetromino t, { s1 with bag := s1.bag.dropLast })
  | none => (createTetromino Tet.I, s1)

/-- `PieceGenerator.peek`: refill when empty, then read
`bag[bag.length - 1]` without removing it. -/
def genPeek (s : GenState) : Tetromino × GenState :=
  let s1 := if s.bag.isEmpty then refillBag s else s
  match s1.bag.getLast? with
  | some t => (createTetromino t, s1)
  | none => (createTetromino Tet.I, s1)

/-- The types dispensed by `n` consecutive `next()` calls. -/
def genNextTypes : Nat → GenState → List Tet × GenState
  | 0, s => ([], s)
  | n + 1, s =>
    let (p, s1) := genNext s
    let (ts, s2) := genNextTypes n s1
    (p.type :: ts, s2)

/-- `isCommandAllowed` from `src/game/Commands.ts`: commands are ignored
inside the post-spawn grace window.  `now` stands for `Date.now()`; the
JS truthiness test `gameState.lastSpawnTime && GAME_CONFIG.SPAWN_DELAY`
requires a defined, non-zero timestamp and a non-zero delay. -/
def isCommandAllowed (now : Int) (s : GameState) : Bool :=
  match s.lastSpawnTime with
  | none => true
  | some t =>
    if t ≠ 0 ∧ GAME_CONFIG.SPAWN_DELAY ≠ 0 then
      if now - t < GAME_CONFIG.SPAWN_DELAY then false else true
    else
      true

/-- The board every command builds:
`new Board(BOARD_WIDTH, BOARD_HEIGHT, gameState.board)`. -/
def boardOf (s : GameState) : Board :=
  Board.ofGrid GAME_CONFIG.BOARD_WIDTH GAME_CONFIG.BOARD_HEIGHT s.board

/-- `MoveCommand.execute`. -/
def moveExecute (dx dy : Int) (now : Int) (s : GameState) : GameState :=
  match s.currentPiece with
  | none => s
  | some p =>
    if s.gameStatus ≠ GameStatus.playing ∨ isCommandAllowed now s = false then
      s
    else
      let b := boardOf s
      let newPosition : Position :=
        ⟨s.currentPosition.x + dx, s.currentPosition.y + dy⟩
      if b.canPlacePiece p newPosition then
        { s with currentPosition := newPosition }
      else
        s

/-- `RotateCommand.execute`: rotate, then try each wall-kick offset in
order (the resolver y offset is negated: up is positive in SRS kicks),
accepting the first placement `canPlacePiece` allows. -/
def rotateExecute (direction : RotationDirection) (now : Int) (s : GameState) :
    GameState :=
  match s.currentPiece with
  | none => s
  | some p =>
    if s.gameStatus ≠ GameStatus.playing ∨ isCommandAllowed now s = false then
      s
    else
      let b := boardOf s
      let rotatedPiece := rotateTetromino p direction
      let kicks := getWallKickOffsets p p.rotationState rotatedPiece.rotationState
      match kicks.find? (fun off =>
          b.canPlacePiece rotatedPiece
            ⟨s.currentPosition.x + off.1, s.currentPosition.y - off.2⟩) with
      | some off =>
        { s with
          currentPiece := some rotatedPiece
          currentPosition :=
            ⟨s.currentPosition.x + off.1, s.currentPosition.y - off.2⟩ }
      | none => s

/-- `SoftDropCommand.execute`. -/
def softDropExecute (now : Int) (s : GameState) : GameState :=
  match s.currentPiece with
  | none => s
  | some p =>
    if s.gameStatus ≠ GameStatus.playing ∨ isCommandAllowed now s = false then
      s
    else
      let b := boardOf s
      let newPosition : Position :=
        ⟨s.currentPosition.x, s.currentPosition.y + 1⟩
      if b.canPlacePiece p newPosition then
        { s with
          currentPosition := newPosition
          score := s.score + GAME_CONFIG.SOFT_DROP_POINTS }
      else
        s

/-- The descent loop of `HardDropCommand.execute`, with explicit fuel.
The JS `while` terminates whenever the piece has at least one occupied
sub-cell (its absolute y eventually reaches `height`), and
`height + shape.length` steps always suffice for such pieces, so on
every state the game can produce the fuelled loop agrees with the
source. -/
def hardDropAux (b : Board) (p : Tetromino) (x : Int) :
    Nat → Int → Nat → Int × Nat
  | 0, testY, dropDistance => (testY, dropDistance)
  | fuel + 1, testY, dropDistance =>
    if b.canPlacePiece p ⟨x, testY + 1⟩ then
      hardDropAux b p x fuel (testY + 1) (dropDistance + 1)
    else
      (testY, dropDistance)

/-- `HardDropCommand.execute`: move to the deepest valid row, award the
distance bonus, and raise `lockRequested` for the next update tick. -/
def hardDropExecute (now : Int) (s : GameState) : GameState :=
  match s.currentPiece with
  | none => s
  | some p =>
    if s.gameStatus ≠ GameStatus.playing ∨ isCommandAllowed now s = false then
      s
    else
      let b := boardOf s
      let (testY, dropDistance) :=
        hardDropAux b p s.currentPosition.x (b.height + p.shape.length)
          s.currentPosition.y 0
      { s with
        currentPosition := ⟨s.currentPosition.x, testY⟩
        score := s.score + dropDistance * GAME_CONFIG.HARD_DROP_POINTS
        lockRequested := true }

/-- `HoldCommand.execute` as it stands in `src/game/Commands.ts` (lines
171–188): after the guard, the body is an unimplemented stub that
returns the state unchanged. -/
def holdExecute (now : Int) (s : GameState) : GameState :=
  match s.currentPiece with
  | none => s
  | some p =>
    if s.canHold = false ∨ s.gameStatus ≠ GameStatus.playing ∨
        isCommandAllowed now s = false then
      s
    else
      s

/-- `GameStateManager.calculateScore` (`src/game/GameState.ts` lines
169–184): the per-count base table times the current level. -/
def calculateScore (s : GameState) (linesCleared : Nat) : Nat :=
  match linesCleared with
  | 1 => GAME_CONFIG.SCORE_SINGLE * s.level
  | 2 => GAME_CONFIG.SCORE_DOUBLE * s.level
  | 3 => GAME_CONFIG.SCORE_TRIPLE * s.level
  | 4 => GAME_CONFIG.SCORE_TETRIS * s.level
  | _ => 0

/-- `GameStateManager.calculateLevel` (`src/game/GameState.ts` lines
193–195): `Math.floor(totalLines / LINES_PER_LEVEL) + 1`, with no cap. -/
def calculateLevel (totalLines : Nat) : Nat :=
  totalLines / GAME_CONFIG.LINES_PER_LEVEL + 1

/-- `GameStateManager.spawnPiece` (`src/game/GameState.ts` lines 73–90):
promote `nextPiece` to the current piece at the fixed spawn coordinate
(3, 0), draw a fresh preview piece, and mark hold available.  The
placement check called for in its TODO comments is absent: the piece is
installed unconditionally and the status is never changed. -/
def spawnPiece (s : GameState) (g : GenState) : GameState × GenState :=
  let currentPiece := s.nextPiece
  let (nextPiece, g1) := genNext g
  ({ s with
     currentPiece := some currentPiece
     currentPosition := ⟨3, 0⟩
     nextPiece := nextPiece
     canHold := true }, g1)

/-- A game state whose grid blocks the spawn cell (3, 0) for the queued
O piece: row 0 holds a locked cell in column 3. -/
def spawnBlockedState : GameState :=
  { board := (List.replicate 10 0).set 3 1 :: List.replicate 19 (List.replicate 10 0)
    currentPiece := none
    currentPosition := ⟨3, 0⟩
    nextPiece := createTetromino Tet.O
    heldPiece := none
    canHold := true
    score := 0
    level := 1
    lines := 0
    gameStatus := GameStatus.playing
    lockRequested := false
    lastSpawnTime := none }

/-- A fresh generator state with an empty bag. -/
def probeGen : GenState := ⟨[], fun _ => 0, 0⟩

/-- A playing state with an active piece, hold available and nothing
held — the configuration in which the Hold command should stash the
active piece. -/
def holdProbeState : GameState :=
  { board := Board.createEmptyGrid 10 20
    currentPiece := some (createTetromino Tet.T)
    currentPosition := ⟨3, 0⟩
    nextPiece := createTetromino Tet.S
    heldPiece := none
    canHold := true
    score := 0
    level := 1
    lines := 0
    gameStatus := GameStatus.playing
    lockRequested := false
    lastSpawnTime := none }

/-- The row predicate of the line-clear rule: every cell of the row is
occupied (non-zero). -/
def rowFull (r : List Nat) : Bool :=
  r.all fun c => !(c == 0)

/-- The increasing list of indices of the rows satisfying `p`. -/
def idxListOf (p : List Nat → Bool) : List (List Nat) → List Nat
  | [] => []
  | r :: g =>
    if p r then 0 :: (idxListOf p g).map (· + 1) else (idxListOf p g).map (· + 1)

lemma rotate_type (p : Tetromino) (d : RotationDirection) :
    (rotateTetromino p d).type = p.type := by
  unfold rotateTetromino
  split <;> rfl

lemma rotate_color (p : Tetromino) (d : RotationDirection) :
    (rotateTetromino p d).color = p.color := by
  unfold rotateTetromino
  split <;> rfl

lemma rotate_rs (p : Tetromino) (h : p.type ≠ Tet.O) (d : RotationDirection) :
    (rotateTetromino p d).rotationState =
      rsStep (TETROMINO_SHAPES p.type).length d p.rotationState := by
  unfold rotateTetromino rsStep
  rw [if_neg h]

lemma rotate_shape (p : Tetromino) (h : p.type ≠ Tet.O) (d : RotationDirection) :
    (rotateTetromino p d).shape =
      (TETROMINO_SHAPES p.type).getD
        (rsStep (TETROMINO_SHAPES p.type).length d p.rotationState) [] := by
  unfold rotateTetromino rsStep
  rw [if_neg h]

lemma rsStep_four (n : Nat) (hn : n = 4 ∨ n = 2) (d : RotationDirection)
    (r : Nat) (hr : r < n) :
    rsStep n d (rsStep n d (rsStep n d (rsStep n d r))) = r := by
  rcases hn with rfl | rfl <;> cases d <;> simp only [rsStep] <;> omega

lemma Tetromino.eq_of (a b : Tetromino) (h1 : a.type = b.type)
    (h2 : a.shape = b.shape) (h3 : a.color = b.color)
    (h4 : a.rotationState = b.rotationState) : a = b := by
  cases a
  cases b
  simp_all

lemma rot_four (p : Tetromino) (h : p.type ≠ Tet.O)
    (hn : (TETROMINO_SHAPES p.type).length = 4 ∨ (TETROMINO_SHAPES p.type).length = 2)
    (hr : p.rotationState < (TETROMINO_SHAPES p.type).length)
    (hsh : p.shape = (TETROMINO_SHAPES p.type).getD p.rotationState [])
    (d : RotationDirection) :
    rotateTetromino (rotateTetromino (rotateTetromino (rotateTetromino p d) d) d) d
      = p := by
  set q1 := rotateTetromino p d with hq1
  set q2 := rotateTetromino q1 d with hq2
  set q3 := rotateTetromino q2 d with hq3
  have ty1 : q1.type = p.type := rotate_type p d
  have ty2 : q2.type = p.type := (rotate_type q1 d).trans ty1
  have ty3 : q3.type = p.type := (rotate_type q2 d).trans ty2
  have h1 : q1.type ≠ Tet.O := by rw [ty1]; exact h
  have h2 : q2.type ≠ Tet.O := by rw [ty2]; exact h
  have h3 : q3.type ≠ Tet.O := by rw [ty3]; exact h
  have rs1 : q1.rotationState =
      rsStep (TETROMINO_SHAPES p.type).length d p.rotationState := rotate_rs p h d
  have rs2 : q2.rotationState =
      rsStep (TETROMINO_SHAPES p.type).length d
        (rsStep (TETROMINO_SHAPES p.type).length d p.rotationState) := by
    rw [rotate_rs q1 h1 d, ty1, rs1]
  have rs3 : q3.rotationState =
      rsStep (TETROMINO_SHAPES p.type).length d
        (rsStep (TETROMINO_SHAPES p.type).length d
          (rsStep (TETROMINO_SHAPES p.type).length d p.rotationState)) := by
    rw [rotate_rs q2 h2 d, ty2, rs2]
  apply Tetromino.eq_of
  · exact (rotate_type q3 d).trans ty3
  · rw [rotate_shape q3 h3 d, ty3, rs3,
      rsStep_four (TETROMINO_SHAPES p.type).length hn d p.rotationState hr, ← hsh]
  · have c1 : q1.color = p.color := rotate_color p d
    have c2 : q2.color = p.color := (rotate_color q1 d).trans c1
    have c3 : q3.color = p.color := (rotate_color q2 d).trans c2
    exact (rotate_color q3 d).trans c3
  · rw [rotate_rs q3 h3 d, ty3, rs3,
      rsStep_four (TETROMINO_SHAPES p.type).length hn d p.rotationState hr]

lemma getD_cons_set_perm :
    ∀ (t : List Tet) (j : Nat) (d a : Tet), j < t.length →
      ((t.getD j d) :: t.set j a).Perm (a :: t)
  | [], j, d, a, h => absurd h (by simp)
  | x :: t, 0, d, a, h => by
    simpa using List.Perm.swap a x t
  | x :: t, j + 1, d, a, h => by
    have hj : j < t.length := by simpa using h
    have s1 : ((t.getD j d) :: x :: t.set j a).Perm (x :: (t.getD j d) :: t.set j a) :=
      List.Perm.swap x (t.getD j d) _
    have s2 : (x :: (t.getD j d) :: t.set j a).Perm (x :: a :: t) :=
      (getD_cons_set_perm t j d a hj).cons x
    have s3 : (x :: a :: t).Perm (a :: x :: t) := List.Perm.swap a x t
    simpa using (s1.trans s2).trans s3

lemma listSwap_perm :
    ∀ (l : List Tet) (i j : Nat), i < l.length → j < l.length →
      (listSwap l i j).Perm l
  | [], i, j, hi, _ => absurd hi (by simp)
  | a :: t, 0, 0, _, _ => by
    simp [listSwap]
  | a :: t, 0, j + 1, _, hj => by
    have hj' : j < t.length := by simpa using hj
    unfold listSwap
    simpa using getD_cons_set_perm t j Tet.I a hj'
  | a :: t, i + 1, 0, hi, _ => by
    have hi' : i < t.length := by simpa using hi
    unfold listSwap
    simpa using getD_cons_set_perm t i Tet.I a hi'
  | a :: t, i + 1, j + 1, hi, hj => by
    have hi' : i < t.length := by simpa using hi
    have hj' : j < t.length := by simpa using hj
    have hperm := (listSwap_perm t i j hi' hj').cons a
    unfold listSwap at hperm ⊢
    simpa using hperm

lemma listSwap_length (l : List Tet) (i j : Nat) :
    (listSwap l i j).length = l.length := by
  simp [listSwap]

lemma fyLoop_perm (rng : Nat → Nat) :
    ∀ (i k : Nat) (l : List Tet), i < l.length → (fyLoop rng k i l).Perm l
  | 0, k, l, _ => List.Perm.refl l
  | i + 1, k, l, hi => by
    have hswap : (listSwap l (i + 1) (rng k % (i + 2))).Perm l :=
      listSwap_perm l (i + 1) (rng k % (i + 2)) hi
        (lt_of_lt_of_le (Nat.mod_lt _ (by omega)) (by omega))
    have hlen : i < (listSwap l (i + 1) (rng k % (i + 2))).length := by
      rw [listSwap_length]; omega
    exact (fyLoop_perm rng i (k + 1) _ hlen).trans hswap

lemma refillBag_perm (s : GenState) : ((refillBag s).bag).Perm allPieces := by
  unfold refillBag
  exact fyLoop_perm s.rng 6 s.used allPieces (by simp [allPieces])

lemma refillBag_length (s : GenState) : (refillBag s).bag.length = 7 := by
  have := (refillBag_perm s).length_eq
  simpa [allPieces] using this

lemma genNextTypes_succ (n : Nat) (s : GenState) :
    genNextTypes (n + 1) s =
      ((genNext s).1.type :: (genNextTypes n (genNext s).2).1,
        (genNextTypes n (genNext s).2).2) := rfl

lemma genNext_concat (s : GenState) (l' : List Tet) (a : Tet)
    (hcat : s.bag = l'.concat a) :
    genNext s = (createTetromino a, { s with bag := l' }) := by
  unfold genNext
  rw [if_neg (by rw [hcat]; simp)]
  have hlast : s.bag.getLast? = some a := by rw [hcat]; simp
  have hdrop : s.bag.dropLast = l' := by rw [hcat]; simp
  simp only [hlast, hdrop]

lemma genNextTypes_of_length :
    ∀ (n : Nat) (s : GenState), s.bag.length = n →
      (genNextTypes n s).1 = s.bag.reverse
  | 0, s, h => by
    simp [genNextTypes, List.length_eq_zero.mp h]
  | n + 1, s, h => by
    rcases List.eq_nil_or_concat s.bag with hnil | ⟨l', a, hcat⟩
    · rw [hnil] at h; simp at h
    · have hlen' : l'.length = n := by
        rw [hcat] at h; simpa using h
      rw [genNextTypes_succ, genNext_concat s l' a hcat]
      have ih := genNextTypes_of_length n { s with bag := l' } hlen'
      simp only at ih ⊢
      rw [ih, hcat]
      simp [createTetromino]

lemma genNext_of_empty (s : GenState) (h : s.bag = []) :
    genNext s = genNext (refillBag s) := by
  unfold genNext
  rw [if_pos (by simp [h]), if_neg (by
    intro hemp
    have h7 := refillBag_length s
    rw [List.isEmpty_iff.mp hemp] at h7
    simp at h7)]

lemma range_filter_eq_idxListOf (p : List Nat → Bool) :
    ∀ g : List (List Nat),
      (List.range g.length).filter (fun y => p (g.getD y [])) = idxListOf p g
  | [] => by simp [idxListOf]
  | r :: g => by
    rw [List.length_cons, List.range_succ_eq_map, idxListOf]
    have hmap : ((List.range g.length).map Nat.succ).filter
        (fun y => p ((r :: g).getD y [])) =
        ((List.range g.length).filter (fun y => p (g.getD y []))).map Nat.succ := by
      rw [List.filter_map]
      congr 1
    by_cases hp : p r
    · rw [List.filter_cons_of_pos (by simpa using hp), hmap,
        range_filter_eq_idxListOf p g, if_pos hp]
    · rw [List.filter_cons_of_neg (by simpa using hp), hmap,
        range_filter_eq_idxListOf p g, if_neg hp]

lemma idxListOf_length (p : List Nat → Bool) :
    ∀ g : List (List Nat), (idxListOf p g).length = g.countP p
  | [] => by simp [idxListOf]
  | r :: g => by
    rw [idxListOf, List.countP_cons]
    by_cases hp : p r
    · rw [if_pos hp]
      simp [idxListOf_length p g, hp]
    · rw [if_neg hp]
      simp [idxListOf_length p g, hp]

lemma eraseIdx_at_append (l1 l2 : List (List Nat)) (r : List Nat) :
    (l1 ++ r :: l2).eraseIdx l1.length = l1 ++ l2 := by
  rw [List.eraseIdx_append_of_length_le (le_refl _)]
  simp

lemma foldl_clearStep_general (w : Nat) (p : List Nat → Bool) :
    ∀ (q pre : List (List Nat)) (m : Nat),
      ((idxListOf p q).map (fun y => y + (m + pre.length))).foldl (Board.clearStep w)
          (List.replicate m (List.replicate w 0) ++ pre ++ q) =
        List.replicate (m + q.countP p) (List.replicate w 0) ++ pre ++
          q.filter (fun r => !(p r))
  | [], pre, m => by simp [idxListOf]
  | r :: q, pre, m => by
    by_cases hp : p r
    · rw [idxListOf, if_pos hp, List.map_cons, List.foldl_cons]
      have hidx : 0 + (m + pre.length) =
          (List.replicate m (List.replicate w 0) ++ pre).length := by simp
      have hstep : Board.clearStep w
          (List.replicate m (List.replicate w 0) ++ pre ++ (r :: q))
          (0 + (m + pre.length)) =
          List.replicate (m + 1) (List.replicate w 0) ++ pre ++ q := by
        simp only [Board.clearStep, hidx,
          eraseIdx_at_append (List.replicate m (List.replicate w 0) ++ pre) q r]
        simp [List.replicate_succ]
      rw [hstep]
      have hmap : ((idxListOf p q).map (· + 1)).map (fun y => y + (m + pre.length)) =
          (idxListOf p q).map (fun y => y + (m + 1 + pre.length)) := by
        rw [List.map_map]
        apply List.map_congr_left
        intro a _
        simp only [Function.comp_apply]
        omega
      rw [hmap, foldl_clearStep_general w p q pre (m + 1),
        List.countP_cons, List.filter_cons_of_neg (by simp [hp])]
      simp only [hp, if_true]
      have harith : m + 1 + q.countP p = m + (q.countP p + 1) := by omega
      rw [harith]
    · rw [idxListOf, if_neg hp]
      have hmap : ((idxListOf p q).map (· + 1)).map (fun y => y + (m + pre.length)) =
          (idxListOf p q).map (fun y => y + (m + (pre ++ [r]).length)) := by
        rw [List.map_map]
        apply List.map_congr_left
        intro a _
        simp only [Function.comp_apply, List.length_append, List.length_cons,
          List.length_nil]
        omega
      have hacc : List.replicate m (List.replicate w 0) ++ pre ++ (r :: q) =
          List.replicate m (List.replicate w 0) ++ (pre ++ [r]) ++ q := by
        simp [List.append_assoc]
      rw [hmap, hacc, foldl_clearStep_general w p q (pre ++ [r]) m,
        List.countP_cons, List.filter_cons_of_pos (by simp [hp])]
      simp only [hp, if_false]
      simp [List.append_assoc]

lemma getCell_in_range (b : Board) (hwf : b.wf) (x y : Nat)
    (hx : x < b.width) (hy : y < b.height) :
    b.getCell x y = (b.grid.getD y []).get? x := by
  unfold Board.getCell
  rw [if_neg (by omega)]
  have hylen : y < b.grid.length := by rw [hwf.1]; exact hy
  obtain ⟨row, hrow⟩ : ∃ row, b.grid.get? y = some row :=
    ⟨b.grid.get ⟨y, hylen⟩, List.get?_eq_get hylen⟩
  have hgetD : b.grid.getD y [] = row := by
    rw [List.getD_eq_getElem?_getD, ← List.get?_eq_getElem?, hrow]
    rfl
  rw [List.get?_eq_getElem?] at hrow
  simp [hrow, hgetD]

lemma isLineComplete_eq_rowFull (b : Board) (hwf : b.wf) (y : Nat)
    (hy : y < b.height) :
    b.isLineComplete y = rowFull (b.grid.getD y []) := by
  have hylen : y < b.grid.length := by rw [hwf.1]; exact hy
  obtain ⟨row, hrow⟩ : ∃ row, b.grid.get? y = some row :=
    ⟨b.grid.get ⟨y, hylen⟩, List.get?_eq_get hylen⟩
  have hgetD : b.grid.getD y [] = row := by
    rw [List.getD_eq_getElem?_getD, ← List.get?_eq_getElem?, hrow]
    rfl
  have hmem : row ∈ b.grid := List.get?_mem hrow
  have hrlen : row.length = b.width := hwf.2 _ hmem
  rw [hgetD]
  unfold Board.isLineComplete rowFull
  rw [Bool.eq_iff_iff]
  simp only [List.all_eq_true, List.mem_range]
  constructor
  · intro h c hc
    obtain ⟨n, hn⟩ := List.mem_iff_get?.mp hc
    have hnlen : n < row.length := by
      rcases List.get?_eq_some.mp hn with ⟨hlt, _⟩
      exact hlt
    have hcell := h n (by omega)
    rw [getCell_in_range b hwf n y (by omega) hy, hgetD, hn] at hcell
    simp only [Bool.not_eq_true', beq_eq_false_iff_ne, ne_eq, Option.some.injEq] at hcell
    simp only [Bool.not_eq_true', beq_eq_false_iff_ne, ne_eq]
    exact hcell
  · intro h n hn
    rw [getCell_in_range b hwf n y hn hy, hgetD]
    simp only [Bool.not_eq_true', beq_eq_false_iff_ne, ne_eq]
    intro hsome
    have hmem0 : (0 : Nat) ∈ row := List.get?_mem hsome
    have h0 := h 0 hmem0
    simp at h0

/-- C1.  The spawn sequence is supposed to test placement at the fixed
spawn coordinate (3, 0) and transition to gameOver when blocked.  On a
state whose grid blocks the queued O piece at (3, 0), the
`spawnPiece` in `src/game/GameState.ts` nevertheless installs the
piece, leaves the status at `playing` (never `gameOver`), and marks
hold available: the blocked-spawn check required by the claim is
missing from the code. -/
theorem claim_C1 :
    (boardOf spawnBlockedState).canPlacePiece spawnBlockedState.nextPiece ⟨3, 0⟩
        = false ∧
    (spawnPiece spawnBlockedState probeGen).1.gameStatus = GameStatus.playing ∧
    (spawnPiece spawnBlockedState probeGen).1.currentPiece =
      some spawnBlockedState.nextPiece ∧
    (spawnPiece spawnBlockedState probeGen).1.canHold = true ∧
    (spawnPiece spawnBlockedState probeGen).1.board = spawnBlockedState.board := by
  refine ⟨by decide, rfl, rfl, rfl, rfl⟩

/-- C2.  `canPlacePiece` returns true exactly when every occupied
sub-cell of the current shape lands at an absolute x inside
`[0, width)`, an absolute y below `height`, and — when its absolute
y is non-negative — on a grid cell that does not hold a non-zero
value; occupied sub-cells with negative absolute y are exempt from the
occupancy check. -/
theorem claim_C2 (b : Board) (p : Tetromino) (pos : Position) :
    b.canPlacePiece p pos = true ↔
      ∀ row col : Nat, row < p.shape.length →
        col < (p.shape.getD row []).length →
        (p.shape.getD row []).getD col 0 ≠ 0 →
        (0 ≤ pos.x + (col : Int) ∧ pos.x + (col : Int) < (b.width : Int) ∧
          pos.y + (row : Int) < (b.height : Int) ∧
          (0 ≤ pos.y + (row : Int) →
            ∀ c, b.getCell (pos.x + col) (pos.y + row) = some c → c = 0)) := by
  unfold Board.canPlacePiece
  simp only [List.all_eq_true, List.mem_range]
  constructor
  · intro h row col hrow hcol hocc
    have h2 := h row hrow col hcol
    rw [if_pos hocc] at h2
    by_cases hb : pos.x + (col : Int) < 0 ∨ (b.width : Int) ≤ pos.x + (col : Int) ∨
        (b.height : Int) ≤ pos.y + (row : Int)
    · rw [if_pos (by exact_mod_cast (by omega : pos.x + (col : Int) < 0 ∨
        pos.x + (col : Int) ≥ (b.width : Int) ∨
        pos.y + (row : Int) ≥ (b.height : Int)))] at h2
      · exact absurd h2 (by simp)
    · push_neg at hb
      obtain ⟨h1, h2', h3'⟩ := hb
      have hnot : ¬(pos.x + (col : Int) < 0 ∨ pos.x + (col : Int) ≥ (b.width : Int) ∨
          pos.y + (row : Int) ≥ (b.height : Int)) := by omega
      rw [if_neg hnot] at h2
      refine ⟨by omega, by omega, by omega, ?_⟩
      intro hy c hc
      rw [if_pos hy] at h2
      rw [hc] at h2
      simpa using h2
  · intro h row hrow col hcol
    by_cases hocc : (p.shape.getD row []).getD col 0 ≠ 0
    · rw [if_pos hocc]
      obtain ⟨hx0, hxw, hyh, hcell⟩ := h row col hrow hcol hocc
      have hnot : ¬(pos.x + (col : Int) < 0 ∨ pos.x + (col : Int) ≥ (b.width : Int) ∨
          pos.y + (row : Int) ≥ (b.height : Int)) := by omega
      rw [if_neg hnot]
      by_cases hy : 0 ≤ pos.y + (row : Int)
      · rw [if_pos hy]
        cases hg : b.getCell (pos.x + col) (pos.y + row) with
        | none => rfl
        | some c => simpa using hcell hy c hg
      · rw [if_neg hy]
    · rw [if_neg hocc]

/-- C3.  On a well-formed board, `clearLines` removes exactly the rows
in which every cell is occupied: the returned count is the number of
full rows, the new grid is that many fresh empty rows on top followed
by the non-full rows in their original relative order (so rows above
each cleared row shift down by one), every row containing an empty
cell survives, and the dimensions are unchanged. -/
theorem claim_C3 (b : Board) (hwf : b.wf) :
    (Board.clearLines b).2 = b.grid.countP rowFull ∧
    (Board.clearLines b).1.grid =
      List.replicate (b.grid.countP rowFull) (List.replicate b.width 0) ++
        b.grid.filter (fun r => !(rowFull r)) ∧
    (∀ r ∈ b.grid, rowFull r = false → r ∈ (Board.clearLines b).1.grid) ∧
    (Board.clearLines b).1.width = b.width ∧
    (Board.clearLines b).1.height = b.height := by
  have hfiltercong : (List.range b.height).filter (fun y => b.isLineComplete y) =
      (List.range b.grid.length).filter (fun y => rowFull (b.grid.getD y [])) := by
    rw [← hwf.1]
    apply List.filter_congr
    intro y hy
    exact isLineComplete_eq_rowFull b hwf y (by rw [← hwf.1]; exact List.mem_range.mp hy)
  have hidx : (List.range b.height).filter (fun y => b.isLineComplete y) =
      idxListOf rowFull b.grid := by
    rw [hfiltercong, range_filter_eq_idxListOf]
  have hfold := foldl_clearStep_general b.width rowFull b.grid [] 0
  simp only [List.length_nil, Nat.add_zero, List.append_nil, List.nil_append,
    List.replicate_zero, Nat.zero_add, List.map_id'] at hfold
  have hgrid : (Board.clearLines b).1.grid =
      List.replicate (b.grid.countP rowFull) (List.replicate b.width 0) ++
        b.grid.filter (fun r => !(rowFull r)) := by
    show ((List.range b.height).filter (fun y => b.isLineComplete y)).foldl
        (Board.clearStep b.width) b.grid = _
    rw [hidx, hfold]
  refine ⟨?_, hgrid, ?_, rfl, rfl⟩
  · show ((List.range b.height).filter (fun y => b.isLineComplete y)).length = _
    rw [hidx, idxListOf_length]
  · intro r hr hfull
    rw [hgrid]
    exact List.mem_append_right _ (List.mem_filter.mpr ⟨hr, by rw [hfull]; rfl⟩)

/-- C3 witness: `clearLines` on a concrete 3×4 board with two full
rows (indices 0 and 2) clears both and keeps the two non-full rows. -/
theorem claim_C3_witness :
    (Board.mk 3 4 [[1, 1, 1], [1, 0, 1], [2, 2, 2], [0, 0, 0]]).wf ∧
    ((Board.clearLines (Board.mk 3 4 [[1, 1, 1], [1, 0, 1], [2, 2, 2], [0, 0, 0]])).2 =
      (Board.mk 3 4 [[1, 1, 1], [1, 0, 1], [2, 2, 2], [0, 0, 0]]).grid.countP rowFull ∧
    (Board.clearLines (Board.mk 3 4 [[1, 1, 1], [1, 0, 1], [2, 2, 2], [0, 0, 0]])).1.grid =
      List.replicate
        ((Board.mk 3 4 [[1, 1, 1], [1, 0, 1], [2, 2, 2], [0, 0, 0]]).grid.countP rowFull)
        (List.replicate (Board.mk 3 4 [[1, 1, 1], [1, 0, 1], [2, 2, 2], [0, 0, 0]]).width 0) ++
        (Board.mk 3 4 [[1, 1, 1], [1, 0, 1], [2, 2, 2], [0, 0, 0]]).grid.filter
          (fun r => !(rowFull r)) ∧
    (∀ r ∈ (Board.mk 3 4 [[1, 1, 1], [1, 0, 1], [2, 2, 2], [0, 0, 0]]).grid,
      rowFull r = false →
        r ∈ (Board.clearLines
          (Board.mk 3 4 [[1, 1, 1], [1, 0, 1], [2, 2, 2], [0, 0, 0]])).1.grid) ∧
    (Board.clearLines (Board.mk 3 4 [[1, 1, 1], [1, 0, 1], [2, 2, 2], [0, 0, 0]])).1.width =
      (Board.mk 3 4 [[1, 1, 1], [1, 0, 1], [2, 2, 2], [0, 0, 0]]).width ∧
    (Board.clearLines (Board.mk 3 4 [[1, 1, 1], [1, 0, 1], [2, 2, 2], [0, 0, 0]])).1.height =
      (Board.mk 3 4 [[1, 1, 1], [1, 0, 1], [2, 2, 2], [0, 0, 0]]).height) :=
  ⟨by decide, claim_C3 (Board.mk 3 4 [[1, 1, 1], [1, 0, 1], [2, 2, 2], [0, 0, 0]]) (by decide)⟩

/-- C4.  The claim says the offset list for the O piece is exactly
[(0,0)] and that the I piece uses a distinct, wider table, but the
`getWallKickOffsets` in `src/game/Board.ts` is a placeholder: it
returns the same five offsets for the O piece (so not `[(0, 0)]`) and
an identical list for the I and T pieces (so no distinct I table).
Only the leading (0,0) of the claim holds. -/
theorem claim_C4 :
    getWallKickOffsets (createTetromino Tet.O) 0 0 =
      [(0, 0), (-1, 0), (1, 0), (0, -1), (-1, -1)] ∧
    getWallKickOffsets (createTetromino Tet.O) 0 0 ≠ [(0, 0)] ∧
    getWallKickOffsets (createTetromino Tet.I) 0 1 =
      getWallKickOffsets (createTetromino Tet.T) 0 1 ∧
    (getWallKickOffsets (createTetromino Tet.I) 0 1).head? = some (0, 0) := by
  refine ⟨rfl, by decide, rfl, rfl⟩

/-- C5.  The claim says the level is capped at the configured maximum
(`MAX_LEVEL = 29`), but `calculateLevel` in `src/game/GameState.ts`
computes `floor(totalLines / linesPerLevel) + 1` with no cap: at 300
total lines it returns 31, where the capped value would be 29. -/
theorem claim_C5 :
    calculateLevel 300 = 31 ∧
    min (300 / GAME_CONFIG.LINES_PER_LEVEL + 1) GAME_CONFIG.MAX_LEVEL = 29 := by
  constructor
  · rfl
  · decide

/-- C6.  The claim says Hold exchanges the active piece with the held
piece (stashing it and summoning a new one when nothing is held) and
clears the can-hold flag.  On a playing state with an active piece,
hold available and nothing held, the `HoldCommand.execute` stub in
`src/game/Commands.ts` returns the state unchanged: nothing is
stashed, no piece is summoned and the flag is not cleared. -/
theorem claim_C6 :
    holdProbeState.canHold = true ∧
    holdProbeState.heldPiece = none ∧
    holdProbeState.gameStatus = GameStatus.playing ∧
    holdExecute 0 holdProbeState = holdProbeState := by
  refine ⟨rfl, rfl, rfl, rfl⟩

/-- C7.  `calculateScore` awards `baseTable[N] × level` for
N ∈ {1, 2, 3, 4} with the four pairwise distinct base values
100/300/500/800, and awards 0 for N = 0 and for every N ≥ 5. -/
theorem claim_C7 (s : GameState) :
    calculateScore s 0 = 0 ∧
    calculateScore s 1 = GAME_CONFIG.SCORE_SINGLE * s.level ∧
    calculateScore s 2 = GAME_CONFIG.SCORE_DOUBLE * s.level ∧
    calculateScore s 3 = GAME_CONFIG.SCORE_TRIPLE * s.level ∧
    calculateScore s 4 = GAME_CONFIG.SCORE_TETRIS * s.level ∧
    (∀ n : Nat, calculateScore s (n + 5) = 0) ∧
    [GAME_CONFIG.SCORE_SINGLE, GAME_CONFIG.SCORE_DOUBLE,
      GAME_CONFIG.SCORE_TRIPLE, GAME_CONFIG.SCORE_TETRIS].Nodup := by
  refine ⟨rfl, rfl, rfl, rfl, rfl, fun n => rfl, by decide⟩

/-- C8.  For every well-formed piece other than the O piece, four
clockwise rotations and likewise four counter-clockwise rotations
return the piece to its original rotation state and shape (indeed to
the identical piece); rotating an O piece in either direction yields
rotation state 0 and an unchanged shape. -/
theorem claim_C8 (p : Tetromino) (hp : p.wf) :
    (p.type ≠ Tet.O →
      rotateTetromino (rotateTetromino (rotateTetromino (rotateTetromino p
        RotationDirection.CW) RotationDirection.CW) RotationDirection.CW)
        RotationDirection.CW = p ∧
      rotateTetromino (rotateTetromino (rotateTetromino (rotateTetromino p
        RotationDirection.CCW) RotationDirection.CCW) RotationDirection.CCW)
        RotationDirection.CCW = p) ∧
    (p.type = Tet.O → ∀ d : RotationDirection,
      (rotateTetromino p d).rotationState = 0 ∧
      (rotateTetromino p d).shape = p.shape) := by
  obtain ⟨hr, hsh⟩ := hp
  constructor
  · intro h
    have hn : (TETROMINO_SHAPES p.type).length = 4 ∨
        (TETROMINO_SHAPES p.type).length = 2 := by
      rcases htt : p.type
      · exact Or.inl rfl
      · exact absurd htt h
      · exact Or.inl rfl
      · exact Or.inr rfl
      · exact Or.inr rfl
      · exact Or.inl rfl
      · exact Or.inl rfl
    exact ⟨rot_four p h hn hr hsh RotationDirection.CW,
      rot_four p h hn hr hsh RotationDirection.CCW⟩
  · intro h d
    have hid : rotateTetromino p d = p := by
      unfold rotateTetromino
      rw [if_pos h]
    have hrs0 : p.rotationState = 0 := by
      rw [h] at hr
      simpa [TETROMINO_SHAPES] using hr
    rw [hid]
    exact ⟨hrs0, rfl⟩

/-- C8 witness: the freshly created T piece is well formed, and the
rotation round trips hold for it. -/
theorem claim_C8_witness :
    (createTetromino Tet.T).wf ∧
    (((createTetromino Tet.T).type ≠ Tet.O →
      rotateTetromino (rotateTetromino (rotateTetromino (rotateTetromino
        (createTetromino Tet.T)
        RotationDirection.CW) RotationDirection.CW) RotationDirection.CW)
        RotationDirection.CW = createTetromino Tet.T ∧
      rotateTetromino (rotateTetromino (rotateTetromino (rotateTetromino
        (createTetromino Tet.T)
        RotationDirection.CCW) RotationDirection.CCW) RotationDirection.CCW)
        RotationDirection.CCW = createTetromino Tet.T) ∧
    ((createTetromino Tet.T).type = Tet.O → ∀ d : RotationDirection,
      (rotateTetromino (createTetromino Tet.T) d).rotationState = 0 ∧
      (rotateTetromino (createTetromino Tet.T) d).shape =
        (createTetromino Tet.T).shape)) :=
  ⟨by decide, claim_C8 (createTetromino Tet.T) (by decide)⟩

/-- C9.  Starting from an empty bag, the next 7 `next()` calls dispense
a permutation of the 7 piece types — each type exactly once, with no
repeats, for every realisation of the random stream — and `peek()`
followed immediately by `next()` always returns the same piece type. -/
theorem claim_C9 (s : GenState) :
    (s.bag = [] →
      ((genNextTypes 7 s).1).Perm allPieces ∧ ((genNextTypes 7 s).1).Nodup) ∧
    (genNext (genPeek s).2).1.type = (genPeek s).1.type := by
  constructor
  · intro hempty
    have hfirst : (genNextTypes 7 s).1 = (genNextTypes 7 (refillBag s)).1 := by
      rw [genNextTypes_succ, genNext_of_empty s hempty, ← genNextTypes_succ]
    have hperm : ((genNextTypes 7 s).1).Perm allPieces := by
      rw [hfirst, genNextTypes_of_length 7 (refillBag s) (refillBag_length s)]
      exact (List.reverse_perm _).trans (refillBag_perm s)
    exact ⟨hperm, hperm.nodup_iff.mpr (by decide)⟩
  · have hne : (if s.bag.isEmpty then refillBag s else s).bag ≠ [] := by
      by_cases hb : s.bag.isEmpty
      · rw [if_pos hb]
        intro h
        have h7 := refillBag_length s
        rw [h] at h7
        simp at h7
      · rw [if_neg hb]
        simpa [List.isEmpty_iff] using hb
    obtain ⟨a, ha⟩ :
        ∃ a, (if s.bag.isEmpty then refillBag s else s).bag.getLast? = some a := by
      cases hgl : (if s.bag.isEmpty then refillBag s else s).bag.getLast?
      · exact absurd (List.getLast?_eq_none_iff.mp hgl) hne
      · exact ⟨_, rfl⟩
    have hpeek : genPeek s =
        (createTetromino a, if s.bag.isEmpty then refillBag s else s) := by
      unfold genPeek
      simp only [ha]
    have hnext : (genNext (if s.bag.isEmpty then refillBag s else s)).1 =
        createTetromino a := by
      unfold genNext
      rw [if_neg (fun hemp => hne (List.isEmpty_iff.mp hemp))]
      simp only [ha]
    rw [hpeek]
    simp only [hnext]

/-- C9 witness: with a concrete empty-bag generator state, the first 7
dispensed types are a permutation of the 7 types, without repeats, and
peek-then-next agree. -/
theorem claim_C9_witness :
    (⟨[], fun k => k, 0⟩ : GenState).bag = [] ∧
    ((genNextTypes 7 (⟨[], fun k => k, 0⟩ : GenState)).1).Perm allPieces ∧
    ((genNextTypes 7 (⟨[], fun k => k, 0⟩ : GenState)).1).Nodup ∧
    (genNext (genPeek (⟨[], fun k => k, 0⟩ : GenState)).2).1.type =
      (genPeek (⟨[], fun k => k, 0⟩ : GenState)).1.type :=
  ⟨rfl, ((claim_C9 ⟨[], fun k => k, 0⟩).1 rfl).1,
    ((claim_C9 ⟨[], fun k => k, 0⟩).1 rfl).2, (claim_C9 ⟨[], fun k => k, 0⟩).2⟩

/-- C10.  Every one of the Move, Rotate, SoftDrop, HardDrop and Hold
commands returns a state whose board grid equals the input state board
grid, for every input state: commands read the grid only through a
defensively copied `Board` and never write it back. -/
theorem claim_C10 (s : GameState) (now dx dy : Int) (direction : RotationDirection) :
    (moveExecute dx dy now s).board = s.board ∧
    (rotateExecute direction now s).board = s.board ∧
    (softDropExecute now s).board = s.board ∧
    (hardDropExecute now s).board = s.board ∧
    (holdExecute now s).board = s.board := by
  refine ⟨?_, ?_, ?_, ?_, ?_⟩
  · cases hcp : s.currentPiece <;> simp only [moveExecute, hcp] <;>
      repeat' first | split | rfl
  · cases hcp : s.currentPiece <;> simp only [rotateExecute, hcp] <;>
      repeat' first | split | rfl
  · cases hcp : s.currentPiece <;> simp only [softDropExecute, hcp] <;>
      repeat' first | split | rfl
  · cases hcp : s.currentPiece <;> simp only [hardDropExecute, hcp] <;>
      repeat' first | split | rfl
  · cases hcp : s.currentPiece <;> simp only [holdExecute, hcp] <;>
      repeat' first | split | rfl

end Tetris
